import Mathlib

/-!
Shallow embedding of the MediaCleaner core (directory scanner, review-queue
state machine, resumable-session protocol) and proofs of the specification
claims about it.

Source layout:
* `src/services/fs-helpers.ts` — `scanDirectory`, `copyFileToDirectory`, `deleteFile`.
* `src/electron/main.cjs` (the React `App` component) — `handleSaveProgress`,
  `handleLoadProgress`, `handleScanComplete`, `executePendingDelete`,
  `processAction`, `handleUndo`.

Modelling conventions:
* A `FileSystemFileHandle` is represented by the identity of the file it
  references (its `path`/`name`) together with the capabilities the handle
  grants: `canRemove` (whether `handle.remove` exists), `removeThrows`
  (whether `handle.remove()` rejects when invoked) and `copyThrows`
  (whether copying through the handle rejects).
* The source folder's storage is the list of paths currently present
  (`fs : List String`); the destination folder is the list of file names
  present (`destFiles : List String`).
* Fallible filesystem calls return `Except FsError _`; a JavaScript
  `throw`/rejected promise is the `.error` case.
* `JSON.parse` output is modelled by the inductive `JValue`; JavaScript
  `Set` membership (SameValueZero, reference equality on objects freshly
  produced by `JSON.parse`) is `jmem`.
* The React `useState` fields of the `App` component form the record
  `AppSt`; each handler is a state transformer.  Functional updates
  (`setX(prev => ...)`) and the fact that each handler reads the state
  committed before it started make sequential state passing faithful.
-/

set_option linter.unusedVariables false

namespace MediaCleaner

/-- JSON values as produced by `JSON.parse` (numbers restricted to the
integers, which is all the snapshot format uses). -/
inductive JValue where
  | null : JValue
  | bool (b : Bool) : JValue
  | num (n : Int) : JValue
  | str (s : String) : JValue
  | arr (elems : List JValue) : JValue
  | obj (fields : List (String × JValue)) : JValue
deriving Repr

/-- SameValueZero comparison as used by JavaScript `Set`: primitives compare
by value; two objects or arrays produced by separate `JSON.parse`
allocations are distinct references and never equal. -/
def jprimEq : JValue → JValue → Bool
  | JValue.null, JValue.null => true
  | JValue.bool a, JValue.bool b => a == b
  | JValue.num a, JValue.num b => a == b
  | JValue.str a, JValue.str b => a == b
  | _, _ => false

/-- `Set.prototype.has`-style membership of a value in a list of values. -/
def jmem (v : JValue) (l : List JValue) : Bool :=
  l.any (jprimEq v)

/-- `new Set(list)` keeps the first occurrence of each (SameValueZero-equal)
element, in insertion order; object elements are all kept (reference
equality). -/
def dedupJ : List JValue → List JValue
  | [] => []
  | v :: vs => v :: dedupJ (vs.filter (fun w => !jprimEq v w))
termination_by l => l.length
decreasing_by
  exact Nat.lt_succ_of_le (List.length_filter_le _ _)

/-- JavaScript truthiness of a parsed JSON value (`undefined` is modelled
as `JValue.null`, which is also falsy). -/
def jTruthy : JValue → Bool
  | JValue.null => false
  | JValue.bool b => b
  | JValue.num n => n != 0
  | JValue.str s => !(s == "")
  | JValue.arr _ => true
  | JValue.obj _ => true

/-- `Array.isArray`. -/
def jIsArray : JValue → Bool
  | JValue.arr _ => true
  | _ => false

/-- Property access `v[k]` on a parsed JSON value; `none` models
`undefined` (also for access on non-objects, whose observable effect in
`handleLoadProgress` coincides with the missing-property case). -/
def jLookup : JValue → String → Option JValue
  | JValue.obj fields, k => (fields.find? (fun p => p.1 == k)).map (fun p => p.2)
  | _, _ => none

/-- The element list of an array value. -/
def jArrElems : JValue → List JValue
  | JValue.arr xs => xs
  | _ => []

/-- `type` field of a scanned file, from `src/types.ts` (`unknown` files are
never stored in the queue, so only the two media kinds appear). -/
inductive MediaKind where
  | image : MediaKind
  | video : MediaKind
deriving Repr, DecidableEq

/-- A `FileItem` (`src/types.ts`): one discovered candidate file.  The
opaque `handle`/`file` pair is represented by the file's identity
(`name`, `path`, `size`) plus the capabilities the handle grants. -/
structure FileItem where
  name : String
  path : String
  size : Nat
  type : MediaKind
  canRemove : Bool
  removeThrows : Bool
  copyThrows : Bool
deriving Repr, DecidableEq

/-- Errors raised by the modelled filesystem layer.  `deleteUnsupported` is
the spec's `DeleteUnsupported` condition; it is included so that claims
about it can be stated, but (as proved below) the code never produces it. -/
inductive FsError where
  | removeFailed : FsError
  | copyFailed : FsError
  | deleteUnsupported : FsError
deriving Repr, DecidableEq

/-- `deleteFile` (`src/services/fs-helpers.ts`, lines 142-150): if the
handle has a `remove` capability, invoke it (it may reject); otherwise log
`console.warn("Direct delete not supported or permission denied.")` and
resolve normally without touching storage. -/
def deleteFile (it : FileItem) (fs : List String) : Except FsError (List String) :=
  if it.canRemove then
    if it.removeThrows then Except.error FsError.removeFailed
    else Except.ok (fs.filter (fun p => !(p == it.path)))
  else Except.ok fs

/-- `copyFileToDirectory` (`src/services/fs-helpers.ts`, lines 112-137):
create-or-open the destination entry named `file.name` and write the
source's contents into it (streaming or buffered — both produce the same
destination contents).  Modelled at the level of which names exist in the
destination; any rejection along the way is `copyThrows`. -/
def copyFileToDirectory (it : FileItem) (dest : List String) : Except FsError (List String) :=
  if it.copyThrows then Except.error FsError.copyFailed
  else if dest.contains it.name then Except.ok dest
  else Except.ok (dest ++ [it.name])

/-! ### Directory scanner (`scanDirectory`, `src/services/fs-helpers.ts` lines 7-92) -/

/-- The MIME prefixes the scanner classifies by. -/
def mimeImage : String := "image/"

/-- MIME prefix for videos. -/
def mimeVideo : String := "video/"

/-- A node of a directory tree as exposed by the File System Access API.
A file child carries its `entry.name`, declared MIME type, size and the
handle capabilities; `getFileFails` models `fileHandle.getFile()`
rejecting for that entry.  A directory child carries its name, its
children (in `handle.values()` enumeration order) and `enumFails`,
modelling `handle.values()` rejecting when the directory is visited. -/
inductive FsNode where
  | file (name : String) (mime : String) (size : Nat)
      (canRemove : Bool) (removeThrows : Bool) (copyThrows : Bool)
      (getFileFails : Bool) : FsNode
  | dir (name : String) (enumFails : Bool) (children : List FsNode) : FsNode
deriving Repr

mutual

/-- Number of nodes in a subtree (termination measure). -/
def nodeSize : FsNode → Nat
  | FsNode.file _ _ _ _ _ _ _ => 1
  | FsNode.dir _ _ ch => 1 + nodeListSize ch

/-- Number of nodes in a forest. -/
def nodeListSize : List FsNode → Nat
  | [] => 0
  | n :: ns => nodeSize n + nodeListSize ns

end

/-- One entry of the scanner's explicit DFS work-stack:
`{ handle, path }` in the source, i.e. a directory (its enumeration
behaviour and children) together with the `/`-joined path leading to it. -/
structure Frame where
  path : String
  enumFails : Bool
  children : List FsNode
deriving Repr

/-- Weight of a stack frame (termination measure). -/
def frameWeight (f : Frame) : Nat := 1 + nodeListSize f.children

/-- Weight of the whole work-stack. -/
def stackWeight (st : List Frame) : Nat := (st.map frameWeight).sum

/-- `path ? `path/name` : name` — the `/`-joined relative path of a child. -/
def entryPath (path name : String) : String :=
  if path == "" then name else path ++ "/" ++ name

/-- The scanner's MIME classification: `image/` → image, `video/` → video,
anything else discarded. -/
def classifyMime (mime : String) : Option MediaKind :=
  if mime.startsWith mimeImage then some MediaKind.image
  else if mime.startsWith mimeVideo then some MediaKind.video
  else none

/-- Whether check number `i` of `signal?.aborted` observes cancellation.
The abort flag is monotone (set once, never cleared), so a signal is fully
described by the index `n` of the first check that observes it
(`none` = never cancelled). -/
def aborted (abortAt : Option Nat) (i : Nat) : Bool :=
  match abortAt with
  | none => false
  | some n => n ≤ i

/-- Mutable state of one execution of the `for await` loop over a
directory's children: the accumulated `files`, the `subDirs` collected so
far (as ready-to-push frames), the index of the next signal check, and the
progress counts reported so far. -/
structure ChildAcc where
  files : List FileItem
  subDirs : List Frame
  ck : Nat
  progress : List Nat
deriving Repr

/-- One iteration of the `for await (const entry of handle.values())` loop
body after the signal check: skip a file whose `getFile()` rejects
(warn-and-continue), accept an image/video file (reporting progress on
every 5th accepted file), discard other files, and collect a
sub-directory into `subDirs` (only when `recursive`). -/
def stepChild (recursive : Bool) (dirPath : String) (c : FsNode) (acc : ChildAcc) :
    ChildAcc :=
  match c with
  | FsNode.file name mime size canRemove removeThrows copyThrows getFileFails =>
    if getFileFails then acc
    else
      match classifyMime mime with
      | some k =>
        let files1 := acc.files ++
          [⟨name, entryPath dirPath name, size, k, canRemove, removeThrows, copyThrows⟩]
        let progress1 :=
          if files1.length % 5 == 0 then acc.progress ++ [files1.length]
          else acc.progress
        { acc with files := files1, progress := progress1 }
      | none => acc
  | FsNode.dir name enumFails ch =>
    if recursive then
      { acc with subDirs := acc.subDirs ++ [⟨entryPath dirPath name, enumFails, ch⟩] }
    else acc

/-- The whole `for await` loop over a directory's children: check the
signal before each child (`break` on abort — the check is consumed and
nothing further is accumulated), then run the loop body. -/
def processChildren (abortAt : Option Nat) (recursive : Bool) (dirPath : String) :
    List FsNode → ChildAcc → ChildAcc
  | [], acc => acc
  | c :: cs, acc =>
    if aborted abortAt acc.ck then { acc with ck := acc.ck + 1 }
    else processChildren abortAt recursive dirPath cs
      (stepChild recursive dirPath c { acc with ck := acc.ck + 1 })

/-- The file item (if any) that the scanner accepts from one child node of
the directory at `dirPath` — the specification-level description of the
loop body's file handling. -/
def acceptFile (dirPath : String) : FsNode → List FileItem
  | FsNode.file name mime size canRemove removeThrows copyThrows getFileFails =>
    if getFileFails then []
    else
      match classifyMime mime with
      | some k => [⟨name, entryPath dirPath name, size, k, canRemove, removeThrows, copyThrows⟩]
      | none => []
  | FsNode.dir _ _ _ => []

/-- The stack frame (if any) that one child node of the directory at
`dirPath` contributes when scanning recursively. -/
def dirFramesOf (dirPath : String) : FsNode → List Frame
  | FsNode.dir name enumFails ch => [⟨entryPath dirPath name, enumFails, ch⟩]
  | FsNode.file _ _ _ _ _ _ _ => []

/-- All files accepted from the immediate children of the directory at
`dirPath`, in enumeration order. -/
def childFiles (dirPath : String) (cs : List FsNode) : List FileItem :=
  (cs.map (acceptFile dirPath)).flatten

/-- All sub-directory frames of the directory at `dirPath`, in discovery
order. -/
def dirFrames (dirPath : String) (cs : List FsNode) : List Frame :=
  (cs.map (dirFramesOf dirPath)).flatten

/-- `stackWeight` distributes over `++`. -/
theorem stackWeight_append (a b : List Frame) :
    stackWeight (a ++ b) = stackWeight a + stackWeight b := by
  simp [stackWeight, List.sum_append]

/-- One loop-body step appends exactly the accepted file to `files`. -/
theorem stepChild_files (recursive : Bool) (dirPath : String) (c : FsNode)
    (acc : ChildAcc) :
    (stepChild recursive dirPath c acc).files = acc.files ++ acceptFile dirPath c := by
  cases c with
  | file name mime size cr rt ct gf =>
    cases gf with
    | true => simp [stepChild, acceptFile]
    | false =>
      cases hk : classifyMime mime with
      | some k => simp [stepChild, acceptFile, hk]
      | none => simp [stepChild, acceptFile, hk]
  | dir name ef ch =>
    cases recursive with
    | true => simp [stepChild, acceptFile]
    | false => simp [stepChild, acceptFile]

/-- One loop-body step appends exactly the contributed frame to `subDirs`
(and nothing when `recursive` is false). -/
theorem stepChild_subDirs (recursive : Bool) (dirPath : String) (c : FsNode)
    (acc : ChildAcc) :
    (stepChild recursive dirPath c acc).subDirs =
      acc.subDirs ++ (if recursive then dirFramesOf dirPath c else []) := by
  cases c with
  | file name mime size cr rt ct gf =>
    cases gf with
    | true => simp [stepChild, dirFramesOf]
    | false =>
      cases hk : classifyMime mime with
      | some k => simp [stepChild, dirFramesOf, hk]
      | none => simp [stepChild, dirFramesOf, hk]
  | dir name ef ch =>
    cases recursive with
    | true => simp [stepChild, dirFramesOf]
    | false => simp [stepChild, dirFramesOf]

/-- One loop-body step does not perform a signal check. -/
theorem stepChild_ck (recursive : Bool) (dirPath : String) (c : FsNode)
    (acc : ChildAcc) :
    (stepChild recursive dirPath c acc).ck = acc.ck := by
  cases c with
  | file name mime size cr rt ct gf =>
    cases gf with
    | true => simp [stepChild]
    | false =>
      cases hk : classifyMime mime with
      | some k => simp [stepChild, hk]
      | none => simp [stepChild, hk]
  | dir name ef ch =>
    cases recursive with
    | true => simp [stepChild]
    | false => simp [stepChild]

/-- A single child's frame contribution weighs no more than the child. -/
theorem dirFramesOf_weight (dirPath : String) (c : FsNode) :
    stackWeight (dirFramesOf dirPath c) ≤ nodeSize c := by
  cases c with
  | file name mime size cr rt ct gf =>
    simp [dirFramesOf, stackWeight, nodeSize]
  | dir name ef ch =>
    simp [dirFramesOf, stackWeight, frameWeight, nodeSize]

/-- The frames collected by one pass over a children list weigh no more
than the forest itself. -/
theorem processChildren_subDirs_weight (abortAt : Option Nat) (recursive : Bool)
    (dirPath : String) (cs : List FsNode) :
    ∀ acc : ChildAcc,
      stackWeight (processChildren abortAt recursive dirPath cs acc).subDirs ≤
        stackWeight acc.subDirs + nodeListSize cs := by
  induction cs with
  | nil =>
    intro acc
    simp only [processChildren]
    exact Nat.le_add_right _ _
  | cons c cs ih =>
    intro acc
    simp only [processChildren]
    by_cases h : aborted abortAt acc.ck
    · simp only [h, if_true]
      exact Nat.le_add_right _ _
    · simp only [h, Bool.false_eq_true, if_false]
      refine le_trans (ih _) ?_
      rw [stepChild_subDirs, stackWeight_append]
      have h1 := dirFramesOf_weight dirPath c
      have h2 : stackWeight (if recursive then dirFramesOf dirPath c else []) ≤ nodeSize c := by
        cases recursive with
        | true => simpa using h1
        | false => simp [stackWeight]
      simp only [nodeListSize]
      omega

/-- The `while (stack.length > 0)` loop of `scanDirectory`: check the
signal before popping each frame (`break` on abort), skip directories whose
enumeration rejects (warn-and-continue), otherwise enumerate the children
and push the collected sub-directories in reverse discovery order (so the
first-discovered one is on top; with the head of the list as the top of
the stack this is `acc.subDirs ++ rest`). -/
def scanGo (abortAt : Option Nat) (recursive : Bool) :
    List Frame → List FileItem → Nat → List Nat → List FileItem × Nat × List Nat
  | [], files, ck, progress => (files, ck, progress)
  | f :: rest, files, ck, progress =>
    if aborted abortAt ck then (files, ck + 1, progress)
    else if f.enumFails then scanGo abortAt recursive rest files (ck + 1) progress
    else
      let acc := processChildren abortAt recursive f.path f.children
        ⟨files, [], ck + 1, progress⟩
      scanGo abortAt recursive (acc.subDirs ++ rest) acc.files acc.ck acc.progress
termination_by st _ _ _ => stackWeight st
decreasing_by
  · simp only [stackWeight, List.map, List.sum_cons]
    have h1 : frameWeight f ≥ 1 := Nat.le_add_right 1 _
    omega
  · have h1 := processChildren_subDirs_weight abortAt recursive f.path f.children
      ⟨files, [], ck + 1, progress⟩
    simp only [stackWeight_append]
    simp only [stackWeight, List.map, List.sum_cons, List.sum_nil, frameWeight] at *
    omega

/-- `scanDirectory(rootHandle, onProgress, signal, recursive)`: seed the
stack with the root, run the loop, then report the final count once more.
`root` is the root directory's child list; the result is the accumulated
file list, the next check index, and the sequence of progress reports. -/
def scanDirectory (root : List FsNode) (abortAt : Option Nat) (recursive : Bool) :
    List FileItem × Nat × List Nat :=
  let r := scanGo abortAt recursive [⟨"", false, root⟩] [] 0 []
  (r.1, r.2.1, r.2.2 ++ [r.1.length])

/-- The file list returned by a scan. -/
def scanFiles (root : List FsNode) (abortAt : Option Nat) (recursive : Bool) :
    List FileItem :=
  (scanDirectory root abortAt recursive).1

/-! ### Session ledger (`handleSaveProgress` / `handleLoadProgress`,
`src/electron/main.cjs` lines 203-261, and the scan-complete filter,
lines 349-353) -/

/-- JSON key of the processed-path array in a snapshot. -/
def keyProcessedPaths : String := "processedPaths"

/-- JSON key of the folder name in a snapshot. -/
def keyFolderName : String := "folderName"

/-- JSON key of the timestamp in a snapshot. -/
def keyTimestamp : String := "timestamp"

/-- JSON key of the processed count in a snapshot. -/
def keyProcessedCount : String := "processedCount"

/-- Fallback shown when a snapshot has no usable folder name. -/
def unknownFolder : String := "Unknown Folder"

/-- Error message set when loading a progress file fails. -/
def msgLoadFailed : String := "Failed to load progress file."

/-- Error message flashed when a step's filesystem operation rejects. -/
def msgFileLocked : String := "File locked or removed externally. Skipped."

/-- The persisted `SessionSnapshot` record written by `handleSaveProgress`. -/
structure SessionSnapshot where
  folderName : String
  timestamp : String
  processedCount : Nat
  processedPaths : List JValue
deriving Repr

/-- `handleSaveProgress` without the DOM plumbing (`exportSnapshot` in the
spec): the processed set is everything already in `ignoredPaths` plus the
`path` of every queue item strictly before `currentIndex`
(`fileQueue.slice(0, currentIndex)`). -/
def exportSnapshot (folderName : String) (timestamp : String)
    (ignoredPaths : List JValue) (fileQueue : List FileItem) (currentIndex : Nat) :
    SessionSnapshot :=
  let processedInSession := (fileQueue.take currentIndex).map (fun f => f.path)
  let allProcessed := ignoredPaths ++ processedInSession.map JValue.str
  ⟨folderName, timestamp, allProcessed.length, allProcessed⟩

/-- `JSON.stringify` of a snapshot followed by `JSON.parse`: the JSON value
a saved snapshot round-trips through. -/
def encodeSnapshot (sn : SessionSnapshot) : JValue :=
  JValue.obj
    [(keyFolderName, JValue.str sn.folderName),
     (keyTimestamp, JValue.str sn.timestamp),
     (keyProcessedCount, JValue.num (Int.ofNat sn.processedCount)),
     (keyProcessedPaths, JValue.arr sn.processedPaths)]

/-- Failure mode of `importSnapshot`. -/
inductive ImportError where
  | invalidFormat : ImportError
deriving Repr, DecidableEq

/-- The validation-and-extraction part of `handleLoadProgress`
(`importSnapshot` in the spec): reject unless `data.processedPaths` is an
array (`!data.processedPaths || !Array.isArray(data.processedPaths)`),
otherwise return the raw element list together with
`data.folderName || "Unknown Folder"`.  Element types are not inspected. -/
def importSnapshot (raw : JValue) : Except ImportError (List JValue × JValue) :=
  let pp := (jLookup raw keyProcessedPaths).getD JValue.null
  if !jTruthy pp || !jIsArray pp then Except.error ImportError.invalidFormat
  else
    let fn := (jLookup raw keyFolderName).getD JValue.null
    Except.ok (jArrElems pp, if jTruthy fn then fn else JValue.str unknownFolder)

/-! ### Review-queue state machine (`src/electron/main.cjs` lines 142-471) -/

/-- The two user decisions (`SwipeAction` in `src/types.ts`). -/
inductive SwipeAction where
  | KEEP : SwipeAction
  | DELETE : SwipeAction
deriving Repr, DecidableEq

/-- The app states a review session moves through (`AppState` in the
source; the scan-time states are not needed by the review claims). -/
inductive AppState where
  | REVIEW : AppState
  | FINISHED : AppState
deriving Repr, DecidableEq

/-- The `useState` fields of the `App` component that the review/session
claims are about, together with the modelled storage: `fs` is the set of
paths currently present under the source folder, `destFiles` the file
names present in the destination folder.  `destMode` is whether
`destHandle` is non-null; `sourceName` is `sourceHandle.name`. -/
structure AppSt where
  appState : AppState
  sourceName : String
  destMode : Bool
  fileQueue : List FileItem
  currentIndex : Nat
  pendingDelete : Option FileItem
  historyStack : List Nat
  ignoredPaths : List JValue
  resumeMode : Bool
  resumeFolderName : Option JValue
  originalTotalBytes : Nat
  bytesDeleted : Nat
  filesDeleted : Nat
  filesKept : Nat
  errorMsg : Option String
  fs : List String
  destFiles : List String
deriving Repr

/-- `executePendingDelete` (`main.cjs` lines 381-392): if a pending
deletion exists, `await deleteFile(...)`; on success add the item's size
and count to the deleted totals, on rejection only log the error; in
either case clear the pending deletion afterwards. -/
def executePendingDelete (s : AppSt) : AppSt :=
  match s.pendingDelete with
  | none => s
  | some it =>
    match deleteFile it s.fs with
    | Except.ok fs1 =>
      { s with fs := fs1, bytesDeleted := s.bytesDeleted + it.size,
               filesDeleted := s.filesDeleted + 1, pendingDelete := none }
    | Except.error _ => { s with pendingDelete := none }

/-- The `catch` block of `processAction` (`main.cjs` lines 441-450): on
the last item move to FINISHED, otherwise advance and flash an error. -/
def catchStep (s : AppSt) : AppSt :=
  if s.currentIndex + 1 ≥ s.fileQueue.length then
    { s with appState := AppState.FINISHED }
  else
    { s with currentIndex := s.currentIndex + 1, errorMsg := some msgFileLocked }

/-- The tail of `processAction`'s `try` block (`main.cjs` lines 425-440):
record the cursor on the history stack; if this was the last item, flush
the delete queued in this same step (if any — `isDeleteAction`) and move
to FINISHED (a rejection of that flush falls into the `catch` block with
the history already pushed); otherwise advance the cursor. -/
def finishStep (s : AppSt) (cur : FileItem) (isDeleteAction : Bool) : AppSt :=
  let s1 := { s with historyStack := s.historyStack ++ [s.currentIndex] }
  if s1.currentIndex + 1 ≥ s1.fileQueue.length then
    if isDeleteAction then
      match deleteFile cur s1.fs with
      | Except.ok fs1 =>
        { s1 with fs := fs1, bytesDeleted := s1.bytesDeleted + cur.size,
                  filesDeleted := s1.filesDeleted + 1, pendingDelete := none,
                  appState := AppState.FINISHED }
      | Except.error _ => catchStep s1
    else { s1 with appState := AppState.FINISHED }
  else { s1 with currentIndex := s1.currentIndex + 1 }

/-- `processAction` (`main.cjs` lines 394-451): return if there is no
current item; flush any pending delete from a previous step; then either
queue the current item as the new pending deletion (DELETE in single-folder
mode), do nothing (DELETE in destination mode — "skip"), copy and count
(KEEP in destination mode; a rejected copy falls into the `catch` block
before the history push), or just count (KEEP in single-folder mode);
finally record history and advance via `finishStep`. -/
def processAction (s0 : AppSt) (action : SwipeAction) : AppSt :=
  match s0.fileQueue.get? s0.currentIndex with
  | none => s0
  | some cur =>
    let s := executePendingDelete s0
    match action with
    | SwipeAction.DELETE =>
      if s.destMode then finishStep s cur false
      else finishStep { s with pendingDelete := some cur } cur true
    | SwipeAction.KEEP =>
      if s.destMode then
        match copyFileToDirectory cur s.destFiles with
        | Except.ok d =>
          finishStep { s with destFiles := d, filesKept := s.filesKept + 1 } cur false
        | Except.error _ => catchStep s
      else finishStep { s with filesKept := s.filesKept + 1 } cur false

/-- `handleUndo` (`main.cjs` lines 453-471): no-op when the history stack
is empty; otherwise read the last recorded index, clear the pending
deletion exactly when its `path` equals the path of the queue item at that
index, move the cursor back and pop the history.  When the recorded index
is out of range and a pending deletion exists, the source reads
`prevFile.path` of `undefined` and throws, so no state update happens. -/
def handleUndo (s : AppSt) : AppSt :=
  match s.historyStack.getLast? with
  | none => s
  | some prevIndex =>
    match s.pendingDelete with
    | none =>
      { s with currentIndex := prevIndex, historyStack := s.historyStack.dropLast }
    | some pd =>
      match s.fileQueue.get? prevIndex with
      | none => s
      | some prevFile =>
        { s with
            pendingDelete := if pd.path == prevFile.path then none else some pd,
            currentIndex := prevIndex,
            historyStack := s.historyStack.dropLast }

/-- The ledger filter inside `handleScanComplete` (`main.cjs` lines
349-353): when the ignored set is non-empty, drop every scanned file whose
`path` is in it (`ignoredPaths.has(f.path)`). -/
def filterEntries (files : List FileItem) (ignoredPaths : List JValue) : List FileItem :=
  if ignoredPaths.length > 0 then
    files.filter (fun f => !jmem (JValue.str f.path) ignoredPaths)
  else files

/-- `handleSaveProgress` (`main.cjs` lines 203-228) as a function of the
app state (the download plumbing aside): export the snapshot built from
the source folder's name, the ignored set and the consumed part of the
queue. -/
def handleSaveProgress (s : AppSt) (timestamp : String) : SessionSnapshot :=
  exportSnapshot s.sourceName timestamp s.ignoredPaths s.fileQueue s.currentIndex

/-- `handleLoadProgress` (`main.cjs` lines 231-261) as a function of the
app state: on a valid payload store the parsed paths as the new ignored
set (`new Set(data.processedPaths)`), remember the folder name and enter
resume mode; on failure only set the error message — every other field is
untouched. -/
def handleLoadProgress (s : AppSt) (raw : JValue) : AppSt :=
  match importSnapshot raw with
  | Except.ok pf =>
    { s with ignoredPaths := dedupJ pf.1, resumeFolderName := some pf.2,
             resumeMode := true, errorMsg := none }
  | Except.error _ => { s with errorMsg := some msgLoadFailed }

/-! ### Helper lemmas about the review state machine -/

/-- Flushing a pending delete touches only `fs`, the deleted counters and
`pendingDelete`; every other field survives. -/
theorem executePendingDelete_keeps (s : AppSt) :
    (executePendingDelete s).appState = s.appState ∧
    (executePendingDelete s).sourceName = s.sourceName ∧
    (executePendingDelete s).destMode = s.destMode ∧
    (executePendingDelete s).fileQueue = s.fileQueue ∧
    (executePendingDelete s).currentIndex = s.currentIndex ∧
    (executePendingDelete s).historyStack = s.historyStack ∧
    (executePendingDelete s).filesKept = s.filesKept ∧
    (executePendingDelete s).destFiles = s.destFiles ∧
    (executePendingDelete s).errorMsg = s.errorMsg := by
  unfold executePendingDelete
  split
  · exact ⟨rfl, rfl, rfl, rfl, rfl, rfl, rfl, rfl, rfl⟩
  · split
    · exact ⟨rfl, rfl, rfl, rfl, rfl, rfl, rfl, rfl, rfl⟩
    · exact ⟨rfl, rfl, rfl, rfl, rfl, rfl, rfl, rfl, rfl⟩

/-! ### Claim C2 (`deleteFile` and absent remove capability) -/

/-- A handle granting no direct-removal capability. -/
def noCapItem : FileItem :=
  ⟨"N.jpg", "N.jpg", 10, MediaKind.image, false, false, false⟩

/-- A one-file storage holding exactly `noCapItem`. -/
def noCapFs : List String := [noCapItem.path]

/-- C2, counterexample: when the handle's remove capability is absent,
`deleteFile` does NOT fail (with `DeleteUnsupported` or anything else) —
it resolves successfully as a silent no-op (apart from a console warning),
leaving storage untouched.  The claim's "fails with DeleteUnsupported,
reported to the caller and never as a silent no-op" is therefore false. -/
theorem deleteFile_noCapability_counterexample :
    deleteFile noCapItem noCapFs = Except.ok noCapFs ∧
    noCapItem.canRemove = false := by
  constructor
  · rfl
  · rfl

/-- C2, amended: for every handle on which the direct-removal capability is
structurally absent, `deleteFile` resolves successfully without touching
the item (the only report is a logged console warning); no
`DeleteUnsupported` error is ever produced. -/
theorem deleteFile_noCapability (it : FileItem) (fs : List String)
    (hcap : it.canRemove = false) :
    deleteFile it fs = Except.ok fs := by
  unfold deleteFile
  rw [hcap]
  simp

/-- C2, witness for the amended theorem. -/
theorem deleteFile_noCapability_witness :
    deleteFile noCapItem ["a.jpg", "N.jpg"] = Except.ok ["a.jpg", "N.jpg"] :=
  deleteFile_noCapability noCapItem ["a.jpg", "N.jpg"] rfl

/-! ### Claim C10 (flushing a capability-less pending delete still counts) -/

/-- C10: when the stored handle's remove capability is absent, flushing the
pending deletion resolves without raising, so `filesDeleted` and
`bytesDeleted` are incremented even though storage is untouched — the
deleted counters can exceed the number of files actually removed. -/
theorem executePendingDelete_noCapability (s : AppSt) (it : FileItem)
    (hpd : s.pendingDelete = some it) (hcap : it.canRemove = false) :
    executePendingDelete s =
      { s with bytesDeleted := s.bytesDeleted + it.size,
               filesDeleted := s.filesDeleted + 1,
               pendingDelete := none } ∧
    (executePendingDelete s).fs = s.fs := by
  simp only [executePendingDelete, hpd]
  have hd : deleteFile it s.fs = Except.ok s.fs := by
    unfold deleteFile
    rw [hcap]
    simp
  rw [hd]
  exact ⟨rfl, rfl⟩

/-- C10, witness. -/
theorem executePendingDelete_noCapability_witness :
    executePendingDelete
        ⟨AppState.REVIEW, "src", false, [], 0, some noCapItem, [], [], false, none,
          10, 0, 0, 0, none, ["N.jpg"], []⟩ =
      { appState := AppState.REVIEW, sourceName := "src", destMode := false,
        fileQueue := [], currentIndex := 0, pendingDelete := none,
        historyStack := [], ignoredPaths := [], resumeMode := false,
        resumeFolderName := none, originalTotalBytes := 10, bytesDeleted := 10,
        filesDeleted := 1, filesKept := 0, errorMsg := none, fs := ["N.jpg"],
        destFiles := [] } :=
  (executePendingDelete_noCapability _ noCapItem rfl rfl).1

/-- `finishStep` when the current item is not the last: push the cursor
onto the history and advance by one. -/
theorem finishStep_nonlast (s : AppSt) (cur : FileItem) (b : Bool)
    (h : ¬ s.currentIndex + 1 ≥ s.fileQueue.length) :
    finishStep s cur b =
      { s with historyStack := s.historyStack ++ [s.currentIndex],
               currentIndex := s.currentIndex + 1 } := by
  unfold finishStep
  rw [if_neg h]

/-- `finishStep` on the last item of a single-folder DELETE whose flush
resolves: flush the just-queued delete, clear it, count it, finish. -/
theorem finishStep_last_delete_ok (s : AppSt) (cur : FileItem) (fs1 : List String)
    (hlast : s.currentIndex + 1 ≥ s.fileQueue.length)
    (hok : deleteFile cur s.fs = Except.ok fs1) :
    finishStep s cur true =
      { s with historyStack := s.historyStack ++ [s.currentIndex],
               fs := fs1,
               bytesDeleted := s.bytesDeleted + cur.size,
               filesDeleted := s.filesDeleted + 1,
               pendingDelete := none,
               appState := AppState.FINISHED } := by
  unfold finishStep
  rw [if_pos hlast]
  simp only [if_true, hok]

/-! ### Claim C1 (decide(DELETE) on a non-last item, single-folder mode) -/

/-- The `catch` block never touches the history stack. -/
theorem catchStep_historyStack (s : AppSt) :
    (catchStep s).historyStack = s.historyStack := by
  unfold catchStep
  split
  · rfl
  · rfl

/-- Every exit of `finishStep` has the cursor pushed onto the history. -/
theorem finishStep_historyStack (s : AppSt) (cur : FileItem) (b : Bool) :
    (finishStep s cur b).historyStack = s.historyStack ++ [s.currentIndex] := by
  unfold finishStep
  by_cases hc : s.currentIndex + 1 ≥ s.fileQueue.length
  · rw [if_pos hc]
    cases b with
    | true =>
      rw [if_pos rfl]
      cases hd : deleteFile cur s.fs with
      | ok fs1 => simp only [hd]
      | error e => simp only [hd, catchStep_historyStack]
    | false => rfl
  · rw [if_neg hc]

/-- C1: in single-folder mode on an active queue, `decide(DELETE)` records
the current cursor on the undo history stack, and — when the current item
is not the last — the whole step first performs any leftover pending
deletion against storage (`executePendingDelete`), then without any
further filesystem operation sets the pending deletion to the current item
and advances the cursor by one.  (Every field not listed in the record
update is exactly the corresponding field of the flushed state, so in
particular `fs` and the deleted counters are exactly those produced by the
flush; the last-item step is described by the claim-C3 theorem.) -/
theorem processAction_delete_active_nonlast (s : AppSt) (cur : FileItem)
    (hdest : s.destMode = false)
    (hcur : s.fileQueue.get? s.currentIndex = some cur) :
    (processAction s SwipeAction.DELETE).historyStack =
      s.historyStack ++ [s.currentIndex] ∧
    (s.currentIndex + 1 < s.fileQueue.length →
      processAction s SwipeAction.DELETE =
        { executePendingDelete s with
            pendingDelete := some cur,
            historyStack := s.historyStack ++ [s.currentIndex],
            currentIndex := s.currentIndex + 1 }) := by
  have hk := executePendingDelete_keeps s
  constructor
  · simp only [processAction, hcur]
    rw [hk.2.2.1, hdest]
    simp only [Bool.false_eq_true, if_false]
    rw [finishStep_historyStack]
    simp only [hk.2.2.2.2.2.1, hk.2.2.2.2.1]
  · intro hlast
    simp only [processAction, hcur]
    rw [hk.2.2.1, hdest]
    simp only [Bool.false_eq_true, if_false]
    rw [finishStep_nonlast]
    · simp only [hk.2.2.2.2.2.1, hk.2.2.2.2.1]
    · simp only [hk.2.2.2.2.1, hk.2.2.2.1]
      omega

/-- The spec's scenario item `A(300)`. -/
def itemA : FileItem := ⟨"A.jpg", "A.jpg", 300, MediaKind.image, true, false, false⟩

/-- The spec's scenario item `B(100)`. -/
def itemB : FileItem := ⟨"B.jpg", "B.jpg", 100, MediaKind.image, true, false, false⟩

/-- The spec's scenario state: queue `[A(300), B(100)]`, single-folder
mode, cursor on `A`. -/
def twoItemSt : AppSt :=
  ⟨AppState.REVIEW, "src", false, [itemA, itemB], 0, none, [], [], false, none,
    400, 0, 0, 0, none, ["A.jpg", "B.jpg"], []⟩

/-- A single-item single-folder queue holding `A(300)`. -/
def oneItemSt : AppSt :=
  ⟨AppState.REVIEW, "src", false, [itemA], 0, none, [], [], false, none,
    300, 0, 0, 0, none, ["A.jpg"], []⟩

/-- C1, witness: the spec's scenario queue `[A(300), B(100)]` with a
DELETE on `A`. -/
theorem processAction_delete_active_nonlast_witness :
    (processAction twoItemSt SwipeAction.DELETE).historyStack = [0] ∧
    processAction twoItemSt SwipeAction.DELETE =
      { executePendingDelete twoItemSt with
          pendingDelete := some itemA,
          historyStack := [0],
          currentIndex := 1 } :=
  ⟨(processAction_delete_active_nonlast twoItemSt itemA rfl rfl).1,
   (processAction_delete_active_nonlast twoItemSt itemA rfl rfl).2 (by decide)⟩

/-! ### Claim C3 (decide(DELETE) on the last item flushes before DONE) -/

/-- A last item whose handle's `remove()` rejects (e.g. the file is locked). -/
def lastThrowItem : FileItem :=
  ⟨"X.jpg", "X.jpg", 50, MediaKind.image, true, true, false⟩

/-- An ACTIVE single-item, single-folder queue holding `lastThrowItem`. -/
def lastThrowSt : AppSt :=
  ⟨AppState.REVIEW, "src", false, [lastThrowItem], 0, none, [], [], false, none,
    50, 0, 0, 0, none, ["X.jpg"], []⟩

/-- C3, counterexample: when the last item's flush rejects, the step still
transitions to DONE but `pendingDelete` is left set (the `catch` block
skips the `setPendingDelete(null)`), so "in the DONE state PendingDeletion
is always empty" is false. -/
theorem processAction_delete_last_counterexample :
    (processAction lastThrowSt SwipeAction.DELETE).appState = AppState.FINISHED ∧
    (processAction lastThrowSt SwipeAction.DELETE).pendingDelete = some lastThrowItem := by
  exact ⟨rfl, rfl⟩

/-- C3, amended: on the last item of a single-folder queue,
`decide(DELETE)` flushes the just-set pending deletion immediately within
that same step before transitioning to DONE, and whenever that flush
resolves (including the no-op resolution when the remove capability is
absent) the DONE state has no pending deletion; only if the flush rejects
does the queue reach DONE with the pending deletion still set. -/
theorem processAction_delete_last (s : AppSt) (cur : FileItem) (fs1 : List String)
    (hdest : s.destMode = false)
    (hcur : s.fileQueue.get? s.currentIndex = some cur)
    (hlast : s.currentIndex + 1 ≥ s.fileQueue.length)
    (hok : deleteFile cur (executePendingDelete s).fs = Except.ok fs1) :
    processAction s SwipeAction.DELETE =
      { executePendingDelete s with
          pendingDelete := none,
          historyStack := s.historyStack ++ [s.currentIndex],
          fs := fs1,
          bytesDeleted := (executePendingDelete s).bytesDeleted + cur.size,
          filesDeleted := (executePendingDelete s).filesDeleted + 1,
          appState := AppState.FINISHED } := by
  have hk := executePendingDelete_keeps s
  simp only [processAction, hcur]
  rw [hk.2.2.1, hdest]
  simp only [Bool.false_eq_true, if_false]
  rw [finishStep_last_delete_ok _ _ fs1]
  · simp only [hk.2.2.2.2.2.1, hk.2.2.2.2.1]
  · simp only [hk.2.2.2.2.1, hk.2.2.2.1]
    omega
  · exact hok

/-- C3, witness for the amended theorem: single-item queue, flush resolves. -/
theorem processAction_delete_last_witness :
    processAction oneItemSt SwipeAction.DELETE =
      { executePendingDelete oneItemSt with
          pendingDelete := none,
          historyStack := [0],
          fs := [],
          bytesDeleted := 300,
          filesDeleted := 1,
          appState := AppState.FINISHED } :=
  processAction_delete_last oneItemSt itemA [] rfl rfl (by decide) rfl

/-! ### Claim C4 (`undo()` semantics) -/

/-- C4: `undo()` is a no-op on an empty history; otherwise it pops the last
recorded cursor, clears the pending deletion exactly when the pending
item's path matches the queue item at that cursor, sets the cursor to the
popped value and removes exactly that one history entry.  In every case
the storage (`fs`, `destFiles`) and all counters are untouched (the record
updates list no other field), so an already-flushed delete or copy is
never restored. -/
theorem handleUndo_spec (s : AppSt) :
    (s.historyStack = [] → handleUndo s = s) ∧
    (∀ p, s.historyStack.getLast? = some p →
      (s.pendingDelete = none →
        handleUndo s = { s with currentIndex := p,
                                historyStack := s.historyStack.dropLast }) ∧
      (∀ pd prevFile, s.pendingDelete = some pd →
        s.fileQueue.get? p = some prevFile →
        handleUndo s = { s with
          pendingDelete := if pd.path == prevFile.path then none else some pd,
          currentIndex := p,
          historyStack := s.historyStack.dropLast })) := by
  constructor
  · intro h
    unfold handleUndo
    rw [h]
    rfl
  · intro p hp
    constructor
    · intro hpd
      simp only [handleUndo, hp, hpd]
    · intro pd prevFile hpd hprev
      simp only [handleUndo, hp, hpd, hprev]

/-- The state right after `decide(DELETE)` on `A` in the two-item
scenario: cursor on `B`, pending deletion `A`, history `[0]`. -/
def afterDeleteASt : AppSt :=
  ⟨AppState.REVIEW, "src", false, [itemA, itemB], 1, some itemA, [0], [],
    false, none, 400, 0, 0, 0, none, ["A.jpg", "B.jpg"], []⟩

/-- C4, witness: undo immediately after `decide(DELETE)` on `A` — cursor
returns, pending cleared, `fs` untouched. -/
theorem handleUndo_spec_witness :
    handleUndo afterDeleteASt =
      { appState := AppState.REVIEW, sourceName := "src", destMode := false,
        fileQueue := [itemA, itemB],
        currentIndex := 0, pendingDelete := none, historyStack := [],
        ignoredPaths := [], resumeMode := false, resumeFolderName := none,
        originalTotalBytes := 400, bytesDeleted := 0, filesDeleted := 0,
        filesKept := 0, errorMsg := none, fs := ["A.jpg", "B.jpg"],
        destFiles := [] } := by
  have h := ((handleUndo_spec afterDeleteASt).2 0 rfl).2 itemA itemA rfl rfl
  rw [h]
  rfl

/-! ### Helper lemmas about SameValueZero membership -/

/-- `jprimEq` is right-Euclidean: two values SameValueZero-equal to the
same value are SameValueZero-equal to each other (only primitives compare
equal, and on primitives it is value equality). -/
theorem jprimEq_euclid (v w a : JValue) (h1 : jprimEq v w = true)
    (h2 : jprimEq a w = true) : jprimEq v a = true := by
  cases v <;> cases w <;> cases a <;> simp_all [jprimEq, beq_iff_eq]

/-- `Set` membership over `++`. -/
theorem jmem_append (v : JValue) (a b : List JValue) :
    jmem v (a ++ b) = (jmem v a || jmem v b) := by
  simp [jmem, List.any_append]

/-- Deduplicating with first-occurrence-wins `Set` insertion preserves
SameValueZero membership. -/
theorem jmem_dedupJ (v : JValue) (l : List JValue) :
    jmem v (dedupJ l) = jmem v l := by
  induction l using dedupJ.induct with
  | case1 => rw [dedupJ]
  | case2 a vs ih =>
    simp only [dedupJ, jmem, List.any_cons] at *
    rw [ih]
    by_cases hva : jprimEq v a = true
    · simp [hva]
    · simp only [Bool.eq_false_iff.mpr hva, Bool.false_or]
      rw [Bool.eq_iff_iff]
      simp only [List.any_eq_true]
      constructor
      · rintro ⟨w, hw, hvw⟩
        exact ⟨w, (List.mem_filter.mp hw).1, hvw⟩
      · rintro ⟨w, hw, hvw⟩
        refine ⟨w, List.mem_filter.mpr ⟨hw, ?_⟩, hvw⟩
        by_cases haw : jprimEq a w = true
        · exact absurd (jprimEq_euclid v w a hvw haw) hva
        · simp [haw]

/-! ### Claim C7 (the ledger filter) -/

/-- C7: the scan-complete filter removes exactly the entries whose path is
in the ignored set, returns a sublist of the input (so relative order and
every field — in particular `size` — of each surviving entry are
preserved), and is idempotent. -/
theorem filterEntries_spec (files : List FileItem) (ign : List JValue) :
    (filterEntries files ign).Sublist files ∧
    (∀ e, e ∈ filterEntries files ign ↔
      e ∈ files ∧ jmem (JValue.str e.path) ign = false) ∧
    filterEntries (filterEntries files ign) ign = filterEntries files ign := by
  by_cases h : ign.length > 0
  · unfold filterEntries
    rw [if_pos h, if_pos h]
    refine ⟨List.filter_sublist _, ?_, ?_⟩
    · intro e
      simp [List.mem_filter]
    · rw [List.filter_filter]
      simp
  · have hn : ign = [] := List.length_eq_zero.mp (by omega)
    subst hn
    unfold filterEntries
    simp [jmem]

/-- C7, witness: a two-entry list with one ignored path. -/
theorem filterEntries_spec_witness :
    (filterEntries [itemA, itemB] [JValue.str "A.jpg"]).Sublist [itemA, itemB] ∧
    (itemB ∈ filterEntries [itemA, itemB] [JValue.str "A.jpg"] ↔
      itemB ∈ [itemA, itemB] ∧ jmem (JValue.str itemB.path) [JValue.str "A.jpg"] = false) ∧
    filterEntries (filterEntries [itemA, itemB] [JValue.str "A.jpg"]) [JValue.str "A.jpg"] =
      filterEntries [itemA, itemB] [JValue.str "A.jpg"] :=
  ⟨(filterEntries_spec [itemA, itemB] [JValue.str "A.jpg"]).1,
   (filterEntries_spec [itemA, itemB] [JValue.str "A.jpg"]).2.1 itemB,
   (filterEntries_spec [itemA, itemB] [JValue.str "A.jpg"]).2.2⟩

/-! ### Claim C6 (importSnapshot validation and failure isolation) -/

/-- C6, amended: `importSnapshot` fails with `InvalidFormat` exactly when
the payload lacks an **array** under `processedPaths` (the element types
are not inspected, so an array of non-strings is accepted); on that
failure `handleLoadProgress` changes only the error message — the ignored
set, queue, cursor and counters are all unchanged. -/
theorem importSnapshot_invalidFormat (s : AppSt) (raw : JValue) :
    (importSnapshot raw = Except.error ImportError.invalidFormat ↔
      ∀ xs, jLookup raw keyProcessedPaths ≠ some (JValue.arr xs)) ∧
    (importSnapshot raw = Except.error ImportError.invalidFormat →
      handleLoadProgress s raw = { s with errorMsg := some msgLoadFailed }) := by
  constructor
  · unfold importSnapshot
    rcases hl : jLookup raw keyProcessedPaths with _ | v
    · simp [jTruthy]
    · cases v with
      | null => simp [jTruthy]
      | bool b => cases b <;> simp [jTruthy, jIsArray]
      | num n =>
        by_cases hn : n = 0
        · subst hn; simp [jTruthy]
        · simp [jTruthy, jIsArray, hn]
      | str t =>
        by_cases ht : t = ""
        · subst ht; simp [jTruthy]
        · simp [jTruthy, jIsArray, ht]
      | arr xs =>
        simp only [Option.getD_some, jTruthy, jIsArray, Bool.not_true,
          Bool.or_self, Bool.false_eq_true, if_false]
        constructor
        · intro h; cases h
        · intro h; exact absurd rfl (h xs)
      | obj fields => simp [jTruthy, jIsArray]
  · intro he
    unfold handleLoadProgress
    rw [he]

/-- A payload whose `processedPaths` is an array of non-strings. -/
def rawBadElems : JValue :=
  JValue.obj [(keyProcessedPaths, JValue.arr [JValue.num 7])]

/-- C6, counterexample: a payload carrying `processedPaths: [7]` — an
array, but not an array of path strings — is accepted without
`InvalidFormat`, refuting the claim's "fails ... exactly when the payload
lacks a well-formed array of path strings". -/
theorem importSnapshot_nonstring_counterexample :
    importSnapshot rawBadElems =
      Except.ok ([JValue.num 7], JValue.str unknownFolder) ∧
    (¬ ∃ t, JValue.num 7 = JValue.str t) := by
  constructor
  · rfl
  · rintro ⟨t, ht⟩
    cases ht

/-- A payload whose `processedPaths` is present but not an array. -/
def rawNotArray : JValue := JValue.obj [(keyProcessedPaths, JValue.str "x")]

/-- C6, witness for the amended theorem: loading a non-array payload fails
and leaves every session field except the error message unchanged. -/
theorem importSnapshot_invalidFormat_witness :
    handleLoadProgress twoItemSt rawNotArray =
      { twoItemSt with errorMsg := some msgLoadFailed } :=
  (importSnapshot_invalidFormat twoItemSt rawNotArray).2 rfl

/-! ### Claim C5 (snapshot export/import round trip) -/

/-- Membership of a string among string-wrapped values. -/
theorem jmem_str_map (p : String) (paths : List String) :
    jmem (JValue.str p) (paths.map JValue.str) = paths.any (fun q => p == q) := by
  induction paths with
  | nil => rfl
  | cons q qs ih =>
    simp only [List.map_cons, jmem, List.any_cons] at *
    rw [ih]
    rfl

/-- Pushing the path projection through `any`. -/
theorem any_path_beq (l : List FileItem) (p : String) :
    (l.map (fun f => f.path)).any (fun q => p == q) = l.any (fun f => f.path == p) := by
  induction l with
  | nil => rfl
  | cons f fs ih =>
    simp only [List.map_cons, List.any_cons, ih]
    congr 1
    rw [Bool.eq_iff_iff]
    simp only [beq_iff_eq]
    exact eq_comm

set_option maxRecDepth 4000 in
/-- Importing an encoded snapshot always succeeds with exactly the encoded
path list. -/
theorem importSnapshot_encode (sn : SessionSnapshot) :
    importSnapshot (encodeSnapshot sn) =
      Except.ok (sn.processedPaths,
        if sn.folderName == "" then JValue.str unknownFolder
        else JValue.str sn.folderName) := by
  by_cases h : sn.folderName = ""
  · simp [importSnapshot, encodeSnapshot, jLookup, keyFolderName, keyTimestamp,
      keyProcessedCount, keyProcessedPaths, jTruthy, jIsArray, jArrElems, h]
  · simp [importSnapshot, encodeSnapshot, jLookup, keyFolderName, keyTimestamp,
      keyProcessedCount, keyProcessedPaths, jTruthy, jIsArray, jArrElems, h]

/-- C5: for every session state (whose queue paths are distinct and
disjoint from the ignored set, as scan + filter guarantee), (1) importing
the snapshot just exported reproduces an ignored set SameValueZero-equal
to the exported `processedPaths`; (2) the exported `processedPaths` holds
exactly the previously ignored paths and the paths of the queue items
strictly before the cursor; and (3) no item at or after the cursor is
included. -/
theorem snapshot_roundTrip (s : AppSt) (ts : String)
    (hNodup : (s.fileQueue.map (fun f => f.path)).Nodup)
    (hDisj : ∀ f ∈ s.fileQueue, jmem (JValue.str f.path) s.ignoredPaths = false) :
    (∀ v, jmem v
        (handleLoadProgress s (encodeSnapshot (handleSaveProgress s ts))).ignoredPaths =
      jmem v (handleSaveProgress s ts).processedPaths) ∧
    (∀ p : String, jmem (JValue.str p) (handleSaveProgress s ts).processedPaths =
      (jmem (JValue.str p) s.ignoredPaths ||
        (s.fileQueue.take s.currentIndex).any (fun f => f.path == p))) ∧
    (∀ j f, s.currentIndex ≤ j → s.fileQueue.get? j = some f →
      jmem (JValue.str f.path) (handleSaveProgress s ts).processedPaths = false) := by
  have hmem : ∀ p : String,
      jmem (JValue.str p) (handleSaveProgress s ts).processedPaths =
        (jmem (JValue.str p) s.ignoredPaths ||
          (s.fileQueue.take s.currentIndex).any (fun f => f.path == p)) := by
    intro p
    simp only [handleSaveProgress, exportSnapshot]
    rw [jmem_append, jmem_str_map, any_path_beq]
  refine ⟨?_, hmem, ?_⟩
  · intro v
    unfold handleLoadProgress
    rw [importSnapshot_encode]
    exact jmem_dedupJ v _
  · intro j f hij hget
    rw [hmem f.path]
    have h1 : jmem (JValue.str f.path) s.ignoredPaths = false :=
      hDisj f (List.get?_mem hget)
    have h2 : (s.fileQueue.take s.currentIndex).any (fun g => g.path == f.path) = false := by
      by_contra hc
      have hc' : (s.fileQueue.take s.currentIndex).any (fun g => g.path == f.path) = true := by
        revert hc
        cases (s.fileQueue.take s.currentIndex).any (fun g => g.path == f.path) <;> simp
      obtain ⟨g, hgmem, hgp⟩ := List.any_eq_true.mp hc'
      obtain ⟨k, hk⟩ := List.mem_iff_get?.mp hgmem
      have hklen : k < (s.fileQueue.take s.currentIndex).length := by
        by_contra hkl
        rw [List.get?_eq_none.mpr (by omega)] at hk
        cases hk
      have hki : k < s.currentIndex := by
        have := List.length_take s.currentIndex s.fileQueue
        omega
      have hkq : s.fileQueue.get? k = some g := by
        rw [← List.get?_take hki]
        exact hk
      have hmapk : (s.fileQueue.map (fun f => f.path)).get? k = some g.path := by
        rw [List.get?_map, hkq]
        rfl
      have hmapj : (s.fileQueue.map (fun f => f.path)).get? j = some f.path := by
        rw [List.get?_map, hget]
        rfl
      have hpath : g.path = f.path := eq_of_beq hgp
      have hkj : k = j := by
        refine List.get?_inj ?_ hNodup ?_
        · rw [List.length_map]
          have := List.length_take s.currentIndex s.fileQueue
          have hjlen : j < s.fileQueue.length := by
            by_contra hjl
            rw [List.get?_eq_none.mpr (by omega)] at hget
            cases hget
          omega
        · rw [hmapk, hmapj, hpath]
      omega
    rw [h1, h2]
    rfl

/-- A resumed two-item session: `old.png` ignored from a prior session,
`A` already consumed in this one, cursor on `B`. -/
def resumedSt : AppSt :=
  ⟨AppState.REVIEW, "src", false, [itemA, itemB], 1, none, [0],
    [JValue.str "old.png"], false, none, 400, 0, 0, 0, none,
    ["A.jpg", "B.jpg"], []⟩

/-- C5, witness: round trip and exclusion of the current item on
`resumedSt`. -/
theorem snapshot_roundTrip_witness :
    (jmem (JValue.str "old.png")
        (handleLoadProgress resumedSt
          (encodeSnapshot (handleSaveProgress resumedSt "t"))).ignoredPaths =
      jmem (JValue.str "old.png") (handleSaveProgress resumedSt "t").processedPaths) ∧
    (jmem (JValue.str "A.jpg") (handleSaveProgress resumedSt "t").processedPaths =
      (jmem (JValue.str "A.jpg") resumedSt.ignoredPaths ||
        (resumedSt.fileQueue.take resumedSt.currentIndex).any
          (fun f => f.path == "A.jpg"))) ∧
    jmem (JValue.str itemB.path) (handleSaveProgress resumedSt "t").processedPaths = false := by
  have h := snapshot_roundTrip resumedSt "t" (by decide) (by decide)
  exact ⟨h.1 (JValue.str "old.png"), h.2.1 "A.jpg", h.2.2 1 itemB (by decide) (by decide)⟩

/-! ### Claim C8 (depth-first traversal order) -/

/-- The `childFiles` of a `cons`. -/
theorem childFiles_cons (p : String) (c : FsNode) (cs : List FsNode) :
    childFiles p (c :: cs) = acceptFile p c ++ childFiles p cs := by
  simp [childFiles]

/-- The `dirFrames` of a `cons`. -/
theorem dirFrames_cons (p : String) (c : FsNode) (cs : List FsNode) :
    dirFrames p (c :: cs) = dirFramesOf p c ++ dirFrames p cs := by
  simp [dirFrames]

/-- A forest's collected frames weigh no more than the forest. -/
theorem dirFrames_weight (p : String) (cs : List FsNode) :
    stackWeight (dirFrames p cs) ≤ nodeListSize cs := by
  induction cs with
  | nil => simp [dirFrames, stackWeight]
  | cons c cs ih =>
    rw [dirFrames_cons, stackWeight_append]
    have h1 := dirFramesOf_weight p c
    simp only [nodeListSize]
    omega

/-- An uncancelled pass over a children list accepts exactly the
directory's files, in order. -/
theorem processChildren_none_files (recursive : Bool) (p : String) :
    ∀ (cs : List FsNode) (acc : ChildAcc),
      (processChildren none recursive p cs acc).files = acc.files ++ childFiles p cs := by
  intro cs
  induction cs with
  | nil =>
    intro acc
    simp [processChildren, childFiles]
  | cons c cs ih =>
    intro acc
    simp only [processChildren]
    rw [if_neg (by simp [aborted])]
    rw [ih, stepChild_files, childFiles_cons, List.append_assoc]

/-- An uncancelled pass over a children list collects exactly the
directory's sub-directory frames, in discovery order (none when not
recursive). -/
theorem processChildren_none_subDirs (recursive : Bool) (p : String) :
    ∀ (cs : List FsNode) (acc : ChildAcc),
      (processChildren none recursive p cs acc).subDirs =
        acc.subDirs ++ (if recursive then dirFrames p cs else []) := by
  intro cs
  induction cs with
  | nil =>
    intro acc
    simp [processChildren, dirFrames]
  | cons c cs ih =>
    intro acc
    simp only [processChildren]
    rw [if_neg (by simp [aborted])]
    rw [ih, stepChild_subDirs]
    cases recursive with
    | true => simp [dirFrames_cons]
    | false => simp

/-- The specification-level depth-first listing of a work-stack: for the
top frame, first the files of its directory (in enumeration order), then —
when recursive — the full listings of its sub-directories in discovery
order (the first-discovered subtree completely before the next), then the
rest of the stack; a directory whose enumeration fails contributes
nothing.  Modelled from the spec's traversal-order description
(§4.1/§8). -/
def dfsFrames (recursive : Bool) : List Frame → List FileItem
  | [] => []
  | f :: rest =>
    (if f.enumFails then []
     else childFiles f.path f.children ++
       (if recursive then dfsFrames recursive (dirFrames f.path f.children) else [])) ++
    dfsFrames recursive rest
termination_by st => stackWeight st
decreasing_by
  · have h1 := dirFrames_weight f.path f.children
    simp only [stackWeight, List.map_cons, List.sum_cons, frameWeight] at h1 ⊢
    omega
  · simp only [stackWeight, List.map_cons, List.sum_cons, frameWeight]
    omega

/-- `dfsFrames` distributes over stack concatenation. -/
theorem dfsFrames_append (recursive : Bool) :
    ∀ (a b : List Frame),
      dfsFrames recursive (a ++ b) = dfsFrames recursive a ++ dfsFrames recursive b := by
  intro a
  induction a with
  | nil => intro b; rw [dfsFrames]; simp
  | cons f a ih =>
    intro b
    rw [List.cons_append, dfsFrames, dfsFrames, ih, List.append_assoc]

/-- The uncancelled scan loop produces the accumulated files followed by
the depth-first listing of the remaining stack. -/
theorem scanGo_none (recursive : Bool) :
    ∀ (stack : List Frame) (files : List FileItem) (ck : Nat) (progress : List Nat),
      (scanGo none recursive stack files ck progress).1 =
        files ++ dfsFrames recursive stack := by
  intro stack files ck progress
  induction stack, files, ck, progress using scanGo.induct none recursive with
  | case1 files ck progress =>
    rw [scanGo, dfsFrames]
    simp
  | case2 f rest files ck progress h =>
    simp [aborted] at h
  | case3 f rest files ck progress h henum ih =>
    rw [scanGo, if_neg h, if_pos henum, ih, dfsFrames, henum]
    simp
  | case4 f rest files ck progress h henum acc ih =>
    rw [scanGo, if_neg h, if_neg (by simp [henum])]
    rw [ih]
    rw [processChildren_none_files, processChildren_none_subDirs, dfsFrames_append]
    rw [dfsFrames]
    cases hr : recursive with
    | true =>
      simp only [if_true, henum, Bool.false_eq_true, if_false, List.append_assoc,
        List.nil_append]
    | false =>
      simp only [if_false, Bool.false_eq_true, henum, List.append_assoc,
        List.nil_append]
      rw [dfsFrames]
      simp

/-- C8: with `recursive = true` the scan returns exactly the depth-first
listing of the tree (stack seeded with the root; each directory's
sub-directories pushed in reverse discovery order, so the
first-discovered child subtree is completed before later siblings); with
`recursive = false` sub-directories are never pushed and only the root's
direct children appear. -/
theorem scanDirectory_dfs_order (root : List FsNode) :
    scanFiles root none true = dfsFrames true [⟨"", false, root⟩] ∧
    scanFiles root none false = childFiles "" root := by
  constructor
  · unfold scanFiles scanDirectory
    rw [scanGo_none]
    simp
  · unfold scanFiles scanDirectory
    rw [scanGo_none]
    rw [dfsFrames, dfsFrames]
    simp

/-! ### Claim C9 (cancellation yields an ordinary partial result that is a
prefix of the full scan) -/

/-- Once the abort flag is observed, the loop returns the accumulated
files unchanged. -/
theorem scanGo_aborted (abortAt : Option Nat) (recursive : Bool)
    (stack : List Frame) (files : List FileItem) (ck : Nat) (progress : List Nat)
    (h : aborted abortAt ck = true) :
    (scanGo abortAt recursive stack files ck progress).1 = files := by
  cases stack with
  | nil => rw [scanGo]
  | cons f rest =>
    rw [scanGo, if_pos h]

/-- A cancelled pass over a children list either observed no abort (and
agrees with the uncancelled pass) or ends with the check counter past the
abort point and its files a prefix of the uncancelled pass's files. -/
theorem processChildren_dichotomy (n : Nat) (recursive : Bool) (p : String) :
    ∀ (cs : List FsNode) (acc : ChildAcc),
      processChildren (some n) recursive p cs acc =
        processChildren none recursive p cs acc ∨
      (n < (processChildren (some n) recursive p cs acc).ck ∧
       ∃ t, (processChildren none recursive p cs acc).files =
         (processChildren (some n) recursive p cs acc).files ++ t) := by
  intro cs
  induction cs with
  | nil =>
    intro acc
    left
    rfl
  | cons c cs ih =>
    intro acc
    by_cases h : aborted (some n) acc.ck = true
    · right
      simp only [processChildren]
      rw [if_pos h, if_neg (by simp [aborted])]
      constructor
      · simp only [aborted, decide_eq_true_eq] at h
        show n < acc.ck + 1
        omega
      · rw [processChildren_none_files, stepChild_files]
        exact ⟨acceptFile p c ++ childFiles p cs, by simp [childFiles_cons]⟩
    · simp only [processChildren]
      rw [if_neg h, if_neg (by simp [aborted])]
      exact ih _

/-- The files of a cancelled scan are an initial segment of the files of
the uncancelled scan started from the same configuration. -/
theorem scanGo_cancel (n : Nat) (recursive : Bool) :
    ∀ (stack : List Frame) (files : List FileItem) (ck : Nat) (progress : List Nat),
      ∃ t, (scanGo none recursive stack files ck progress).1 =
        (scanGo (some n) recursive stack files ck progress).1 ++ t := by
  intro stack files ck progress
  induction stack, files, ck, progress using scanGo.induct (some n) recursive with
  | case1 files ck progress =>
    exact ⟨[], by simp [scanGo]⟩
  | case2 f rest files ck progress h =>
    refine ⟨dfsFrames recursive (f :: rest), ?_⟩
    rw [scanGo_none, scanGo_aborted (some n) recursive _ _ _ _ h]
  | case3 f rest files ck progress h henum ih =>
    obtain ⟨t, ht⟩ := ih
    refine ⟨t, ?_⟩
    rw [scanGo, if_neg (by simp [aborted]), if_pos henum]
    rw [scanGo, if_neg h, if_pos henum]
    exact ht
  | case4 f rest files ck progress h henum acc ih =>
    rcases processChildren_dichotomy n recursive f.path f.children
        ⟨files, [], ck + 1, progress⟩ with heq | ⟨hck, t0, ht0⟩
    · obtain ⟨t, ht⟩ := ih
      refine ⟨t, ?_⟩
      rw [scanGo, if_neg (by simp [aborted]), if_neg (by simp [henum])]
      rw [scanGo, if_neg h, if_neg (by simp [henum])]
      rw [← heq]
      exact ht
    · refine ⟨t0 ++ dfsFrames recursive
        ((processChildren none recursive f.path f.children
            ⟨files, [], ck + 1, progress⟩).subDirs ++ rest), ?_⟩
      rw [scanGo, if_neg (by simp [aborted]), if_neg (by simp [henum])]
      rw [scanGo, if_neg h, if_neg (by simp [henum])]
      rw [scanGo_none]
      rw [scanGo_aborted (some n) recursive _ _ _ _ (by simp [aborted]; omega)]
      rw [ht0, List.append_assoc]

/-- C9: cancelling a scan (at any abort point `n`, the index of the first
signal check — performed before popping each frame and before each child —
that observes cancellation) makes the scan return normally with the files
accumulated so far, and that partial result is an initial segment of the
sequence the uncancelled scan of the same tree returns. -/
theorem scanDirectory_cancel_partial (root : List FsNode) (recursive : Bool) (n : Nat) :
    ∃ t, scanFiles root none recursive = scanFiles root (some n) recursive ++ t := by
  unfold scanFiles scanDirectory
  exact scanGo_cancel n recursive [⟨"", false, root⟩] [] 0 []

end MediaCleaner
